import Mathlib

/-!
Shallow embedding of the quiz-engine core of the vocab-rush repository
(vocabulary app in `src/unnamed/part_000`, math generators in
`src/src/mathData.js`), together with proofs of the specification claims.

Conventions of the embedding:
* JavaScript numbers are modelled exactly (`ℕ`/`ℤ`/`ℚ`); all quantities the
  engine manipulates (seconds, points, streaks, offsets, 2-decimal
  roundings) stay well inside the range where IEEE doubles behave like
  exact arithmetic, and distinct numeric values render to distinct
  `String(...)` labels, so numeric choice labels are modelled by their
  values.
* `Math.random()`-driven code takes an explicit stream of naturals
  (`RandStream`); a call site that needs a value in `[lo, hi]` reduces the
  next stream element into that range (`randIn`), which models
  `Math.floor(Math.random() * (hi - lo + 1)) + lo`.
* JavaScript `Set` objects collecting candidate values are modelled as
  `Finset` (same membership semantics: the code only reads size,
  membership and the final element collection, so insertion order is
  irrelevant to every claim).
* `while` loops whose iteration count is not syntactically bounded carry
  an explicit fuel argument and return `Option`; a fuel-sufficiency
  theorem shows the concrete fuel used by the engine always returns
  `some`, which is the faithful rendering of "this loop terminates within
  a bounded number of steps".
-/

namespace VocabRush

/-- A stream of raw random draws; element `k` stands for the `k`-th
`Math.random()` call of the loop being modelled (already scaled to an
unbounded natural). -/
abbrev RandStream := ℕ → ℕ

/-- `rand(lo, hi)` from `mathData.js`:
`Math.floor(Math.random()*(hi-lo+1))+lo`, driven by one raw draw `v`.
The result lies in `[lo, hi]` whenever `lo ≤ hi`. -/
def randIn (v lo hi : ℕ) : ℕ := lo + v % (hi + 1 - lo)

/-- One array swap `[a[i], a[j]] = [a[j], a[i]]`, as a list operation.
Out-of-range indices leave the list unchanged (the shuffle below only uses
in-range indices, but totality needs the branch). -/
def listSwap {α : Type} (l : List α) (i j : ℕ) : List α :=
  match l[i]?, l[j]? with
  | some x, some y => (l.set i y).set j x
  | _, _ => l

/-- The descending loop of the Fisher–Yates shuffle from the source:
`for (let i = a.length - 1; i > 0; i--) { j = floor(random()*(i+1)); … }`.
The counter argument is the current value of `i`; the random index
`j = Math.floor(Math.random() * (i + 1))` is modelled as `r i % (i + 1)`,
which ranges over exactly `[0, i]`. -/
def fyLoop {α : Type} (r : RandStream) : ℕ → List α → List α
  | 0, a => a
  | i + 1, a => fyLoop r i (listSwap a (i + 1) (r (i + 1) % (i + 2)))

/-- `shuffle(arr)` from the source (`part_000` and `mathData.js` define the
same function): copy the array, then Fisher–Yates from the last index
down to 1. -/
def shuffle {α : Type} (r : RandStream) (a : List α) : List α :=
  fyLoop r (a.length - 1) a

/-! ### Choice assembly -/

/-- A multiple-choice option as built in `generateMathQuestions`:
`{ label, isCorrect }`.  Numeric labels are modelled by their values
(`String(...)` is injective on the exact values the generators emit). -/
structure Choice (α : Type) where
  label : α
  isCorrect : Bool

/-- The choice assembly step of `generateMathQuestions` (`mathData.js`):
`shuffle([{label: answer, isCorrect: true}, ...wrongs.map(w => ({label: w,
isCorrect: false}))])`. -/
def mkMathChoices {α : Type} (r : RandStream) (answer : α) (wrongs : List α) :
    List (Choice α) :=
  shuffle r (⟨answer, true⟩ :: wrongs.map fun w => ⟨w, false⟩)

/-- A vocabulary entry `{ en, ko, hint }` from the word pool. -/
structure Word where
  en : String
  ko : String
  hint : String
deriving DecidableEq

/-- `generateChoices(correct, allWords)` from `part_000`: filter out every
word spelled like the correct one, shuffle, keep 3, then shuffle the
4-element candidate list. -/
def generateChoices (r₁ r₂ : RandStream) (correct : Word)
    (allWords : List Word) : List Word :=
  let others := allWords.filter fun w => w.en != correct.en
  let wrong := (shuffle r₁ others).take 3
  shuffle r₂ (correct :: wrong)

/-! ### Session state machine (`part_000`, first app) -/

/-- A difficulty tier from the `DIFFICULTY` table: per-question time limit
in seconds and base points (`label` and `color` are display-only). -/
structure Difficulty where
  time : ℕ
  points : ℕ

/-- `DIFFICULTY.easy = { time: 15, points: 10 }`. -/
def DIFFICULTY_easy : Difficulty := ⟨15, 10⟩

/-- `DIFFICULTY.medium = { time: 10, points: 20 }`. -/
def DIFFICULTY_medium : Difficulty := ⟨10, 20⟩

/-- `DIFFICULTY.hard = { time: 6, points: 35 }`. -/
def DIFFICULTY_hard : Difficulty := ⟨6, 35⟩

/-- One round question built in `startGame`: the word plus its shuffled
choice list. -/
structure Question where
  word : Word
  choices : List Word

instance : Inhabited Word := ⟨⟨"", "", ""⟩⟩

instance : Inhabited Question := ⟨⟨default, []⟩⟩

/-- One entry of the `results` list appended by `handleAnswer`. -/
structure AnswerResult where
  word : Word
  chosen : Option Word
  correct : Bool
  points : ℕ
  timeUsed : ℕ

/-- The React component state that `handleAnswer` and the countdown effect
read and write: question list, current index, score, streak, best streak,
selected choice (`none` while unanswered), seconds left, per-question
results, and whether the countdown interval is live (`timerRef`). -/
structure Session where
  questions : List Question
  current : ℕ
  score : ℕ
  streak : ℕ
  bestStreak : ℕ
  selected : Option Word
  timeLeft : ℕ
  results : List AnswerResult
  timerOn : Bool

/-- The placeholder `{ en: "__timeout__" }` stored in `selected` on a
timeout answer (the other fields are absent in the source object and are
modelled as empty). -/
def timeoutWord : Word := ⟨"__timeout__", "", ""⟩

/-- The correctness test of `handleAnswer`:
`const correct = choice && choice.en === q.word.en` (a `null` choice —
the timeout submission — is falsy, hence incorrect). -/
def answerCorrect (s : Session) (choice : Option Word) : Bool :=
  match choice with
  | none => false
  | some c => c.en == (s.questions.getD s.current default).word.en

/-- `handleAnswer(choice)` from `part_000` (the synchronous part: guard,
timer stop, scoring, state updates, result append; the delayed
advance/round-completion continuation is modelled separately).

Scoring notes: `timeLeft` is an integer count of seconds (initialised to
`DIFFICULTY.time`, decremented by 1 per tick), so
`Math.floor(timeLeft * 2) = timeLeft * 2` and the float comparison
`timeLeft > time * 0.6` is exactly `10 * timeLeft > 6 * time`. -/
def handleAnswer (d : Difficulty) (s : Session) (choice : Option Word) :
    Session :=
  if s.selected.isSome then s
  else
    let q := s.questions.getD s.current default
    let correct := answerCorrect s choice
    let speedBonus :=
      if correct && decide (6 * d.time < 10 * s.timeLeft)
      then s.timeLeft * 2 else 0
    let newStreak := if correct then s.streak + 1 else 0
    let streakBonus :=
      if correct && decide (3 ≤ newStreak) then newStreak * 5 else 0
    let pts := if correct then d.points + speedBonus + streakBonus else 0
    let entry : AnswerResult :=
      ⟨q.word, choice, correct, pts, d.time - s.timeLeft⟩
    { s with
      timerOn := false
      selected := some (choice.getD timeoutWord)
      score := s.score + pts
      streak := newStreak
      bestStreak := max s.bestStreak newStreak
      results := s.results ++ [entry] }

/-- One firing of the countdown interval from the `useEffect` in
`part_000` (the interval only runs while `selected === null`):
`setTimeLeft(t => { if (t <= 1) { clearInterval; handleAnswer(null);
return 0 } return t - 1 })`. -/
def tick (d : Difficulty) (s : Session) : Session :=
  if s.timeLeft ≤ 1 then { handleAnswer d s none with timeLeft := 0 }
  else { s with timeLeft := s.timeLeft - 1 }

/-- `startGame` (`part_000`): draw the round's words as a prefix of a
shuffle of the category pool (`shuffle(pool).slice(0, roundSize)`), and
build each question's choices.  `rc` routes an independent slice of the
global random source to each `generateChoices` call. -/
def startGame (rp : RandStream) (rc : ℕ → RandStream × RandStream)
    (pool allWords : List Word) (roundSize : ℕ) : List Question :=
  let words := (shuffle rp pool).take roundSize
  words.mapIdx fun i w =>
    { word := w, choices := generateChoices (rc i).1 (rc i).2 w allWords }

/-! ### Achievements and persistent stats (`part_000`) -/

/-- The persisted cumulative record (`DEFAULT_STATS` shape). -/
structure Stats where
  totalCorrect : ℕ
  totalGames : ℕ
  bestStreakEver : ℕ
  totalScore : ℕ
  perfectRounds : ℕ
  unlockedIds : List String
deriving DecidableEq

/-- `DEFAULT_STATS`: all-zero with an empty unlock list. -/
def DEFAULT_STATS : Stats := ⟨0, 0, 0, 0, 0, []⟩

/-- One `ACHIEVEMENTS` entry: stable id plus unlock predicate over Stats
(`icon`, `title`, `desc` are display-only). -/
structure Achievement where
  id : String
  check : Stats → Bool

/-- The `ACHIEVEMENTS` table from `part_000`. -/
def ACHIEVEMENTS : List Achievement := [
  ⟨"c100", fun s => decide (100 ≤ s.totalCorrect)⟩,
  ⟨"c300", fun s => decide (300 ≤ s.totalCorrect)⟩,
  ⟨"c500", fun s => decide (500 ≤ s.totalCorrect)⟩,
  ⟨"c1000", fun s => decide (1000 ≤ s.totalCorrect)⟩,
  ⟨"c2000", fun s => decide (2000 ≤ s.totalCorrect)⟩,
  ⟨"c5000", fun s => decide (5000 ≤ s.totalCorrect)⟩,
  ⟨"c10000", fun s => decide (10000 ≤ s.totalCorrect)⟩,
  ⟨"s5", fun s => decide (5 ≤ s.bestStreakEver)⟩,
  ⟨"s10", fun s => decide (10 ≤ s.bestStreakEver)⟩,
  ⟨"s15", fun s => decide (15 ≤ s.bestStreakEver)⟩,
  ⟨"s20", fun s => decide (20 ≤ s.bestStreakEver)⟩,
  ⟨"s25", fun s => decide (25 ≤ s.bestStreakEver)⟩,
  ⟨"g10", fun s => decide (10 ≤ s.totalGames)⟩,
  ⟨"g50", fun s => decide (50 ≤ s.totalGames)⟩,
  ⟨"g100", fun s => decide (100 ≤ s.totalGames)⟩,
  ⟨"g500", fun s => decide (500 ≤ s.totalGames)⟩,
  ⟨"p1", fun s => decide (1 ≤ s.perfectRounds)⟩,
  ⟨"p10", fun s => decide (10 ≤ s.perfectRounds)⟩,
  ⟨"p50", fun s => decide (50 ≤ s.perfectRounds)⟩,
  ⟨"sc5k", fun s => decide (5000 ≤ s.totalScore)⟩,
  ⟨"sc20k", fun s => decide (20000 ≤ s.totalScore)⟩,
  ⟨"sc100k", fun s => decide (100000 ≤ s.totalScore)⟩]

/-- The `setStats` updater run at round completion in `handleAnswer`
(`part_000`): additive/maximum merge of the round summary, then unlock
every achievement whose id is not yet recorded and whose predicate holds
on the merged record. -/
def updateStats (prev : Stats) (roundCorrect bestStreak newStreak : ℕ)
    (score pts : ℕ) (isPerfect : Bool) : Stats :=
  let updated : Stats :=
    { prev with
      totalCorrect := prev.totalCorrect + roundCorrect
      totalGames := prev.totalGames + 1
      bestStreakEver := max prev.bestStreakEver (max bestStreak newStreak)
      totalScore := prev.totalScore + score + pts
      perfectRounds := prev.perfectRounds + (if isPerfect then 1 else 0) }
  let newly := ACHIEVEMENTS.filter fun a =>
    !(prev.unlockedIds.contains a.id) && a.check updated
  if 0 < newly.length then
    { updated with unlockedIds := prev.unlockedIds ++ newly.map (·.id) }
  else updated

/-! ### Stats persistence (`loadStats` / `saveStats` in `part_000`) -/

/-- A parsed JSON payload for the stats key: each Stats field may be
present or absent (a record written by an older version may lack some). -/
structure PartialStats where
  totalCorrect : Option ℕ
  totalGames : Option ℕ
  bestStreakEver : Option ℕ
  totalScore : Option ℕ
  perfectRounds : Option ℕ
  unlockedIds : Option (List String)

/-- The spread merge `{ ...DEFAULT_STATS, ...JSON.parse(raw) }`: every
field present in the payload overrides the default, every absent field
keeps its default. -/
def mergeStats (p : PartialStats) : Stats :=
  { totalCorrect := p.totalCorrect.getD DEFAULT_STATS.totalCorrect
    totalGames := p.totalGames.getD DEFAULT_STATS.totalGames
    bestStreakEver := p.bestStreakEver.getD DEFAULT_STATS.bestStreakEver
    totalScore := p.totalScore.getD DEFAULT_STATS.totalScore
    perfectRounds := p.perfectRounds.getD DEFAULT_STATS.perfectRounds
    unlockedIds := p.unlockedIds.getD DEFAULT_STATS.unlockedIds }

/-- `loadStats()`: the outer `Option` is whether `localStorage.getItem`
returned a payload; the inner `Option` is whether `JSON.parse` succeeded
(a corrupt payload throws, the `catch` falls through to the default). -/
def loadStats (payload : Option (Option PartialStats)) : Stats :=
  match payload with
  | some (some p) => mergeStats p
  | some none => DEFAULT_STATS
  | none => DEFAULT_STATS

/-- `JSON.stringify` of a full Stats record (`saveStats`) parses back to a
payload with every field present. -/
def encodeStats (s : Stats) : PartialStats :=
  ⟨some s.totalCorrect, some s.totalGames, some s.bestStreakEver,
   some s.totalScore, some s.perfectRounds, some s.unlockedIds⟩

/-! ### Distractor synthesis (`mathData.js`) -/

/-- `Math.abs(correct) || 1` in `generateWrongAnswers`. -/
def absValOf (c : ℤ) : ℤ := if |c| = 0 then 1 else |c|

/-- The proportional offset bound `Math.max(5, Math.ceil(absVal * 0.3))`. -/
def propBound (c : ℤ) : ℕ := max 5 (⌈(3 * absValOf c : ℚ) / 10⌉).toNat

/-- One randomized offset of `generateWrongAnswers`: pick one of four
strategies (small proportional offset, its negation, fixed `±1..10`),
then the offset magnitude.  `v₁` drives the strategy draw, `v₂` the
magnitude draw. -/
def awOffset (c : ℤ) (v₁ v₂ : ℕ) : ℤ :=
  let strategy := randIn v₁ 0 3
  if strategy = 0 then (randIn v₂ 1 (propBound c) : ℤ)
  else if strategy = 1 then -(randIn v₂ 1 (propBound c) : ℤ)
  else if strategy = 2 then (randIn v₂ 1 10 : ℤ)
  else -(randIn v₂ 1 10 : ℤ)

/-- The randomized phase of `generateWrongAnswers`:
`while (wrongs.size < count && attempts < 50)`; the counter argument is
the number of attempts still allowed.  A candidate is kept only when it
differs from `correct` and is not yet in the set. -/
def awAttempts (c : ℤ) (count : ℕ) (r : RandStream) :
    ℕ → Finset ℤ → Finset ℤ
  | 0, s => s
  | n + 1, s =>
    if s.card < count then
      let wrong := c + awOffset c (r (2 * n)) (r (2 * n + 1))
      awAttempts c count r n
        (if wrong ≠ c ∧ wrong ∉ s then insert wrong s else s)
    else s

/-- The deterministic fallback loop of `generateWrongAnswers`
(`while (wrongs.size < count)` trying `correct + fallback`, then
`correct - fallback`, then `fallback++`), with explicit fuel.  The
argument `f` is the number of `fallback++` steps already taken, so the
offset tried is `f + 1`. -/
def intFallbackFuel (c : ℤ) (count : ℕ) :
    ℕ → Finset ℤ → ℕ → Option (Finset ℤ)
  | 0, s, _ => if s.card < count then none else some s
  | fuel + 1, s, f =>
    if s.card < count then
      if c + (f + 1 : ℤ) ≠ c ∧ c + (f + 1 : ℤ) ∉ s then
        intFallbackFuel c count fuel (insert (c + (f + 1 : ℤ)) s) (f + 1)
      else if c - (f + 1 : ℤ) ≠ c ∧ c - (f + 1 : ℤ) ∉ s then
        intFallbackFuel c count fuel (insert (c - (f + 1 : ℤ)) s) (f + 1)
      else intFallbackFuel c count fuel s (f + 1)
    else some s

/-- `generateWrongAnswers(correct, count)` over exact integers: 50
randomized attempts, then the deterministic fallback.  Fuel `count + 1`
is enough for the fallback loop (proved below), so the result is always
`some` — the loop never runs unboundedly. -/
def generateWrongAnswers (c : ℤ) (count : ℕ) (r : RandStream) :
    Option (Finset ℤ) :=
  intFallbackFuel c count (count + 1) (awAttempts c count r 50 ∅) 0

/-- `Math.round(x * 100) / 100` (JavaScript `Math.round` is `⌊x + 1/2⌋`,
exactly Mathlib's `round`). -/
def round100 (x : ℚ) : ℚ := (round (x * 100) : ℚ) / 100

/-- The randomized phase of `generateFractionWrongs`: offsets on the
quarter lattice `(rand(1,8) - 4) / 4 ∈ {-3/4 … 1}`, skipping 0,
rounded to 2 decimals. -/
def fracAttempts (c : ℚ) (count : ℕ) (r : RandStream) :
    ℕ → Finset ℚ → Finset ℚ
  | 0, s => s
  | n + 1, s =>
    if s.card < count then
      let offset : ℚ := ((randIn (r n) 1 8 : ℚ) - 4) / 4
      if offset = 0 then fracAttempts c count r n s
      else
        let wrong := round100 (c + offset)
        fracAttempts c count r n
          (if wrong ≠ c ∧ wrong ∉ s then insert wrong s else s)
    else s

/-- The deterministic fallback loop of `generateFractionWrongs`
(`fallback = 0.25; while (size < count) { w = round100(correct +
fallback); maybe add; fallback += 0.25 }`), with explicit fuel.  `k` is
the number of steps taken, so the offset tried is `(k + 1) / 4`. -/
def fracFallbackFuel (c : ℚ) (count : ℕ) :
    ℕ → Finset ℚ → ℕ → Option (Finset ℚ)
  | 0, s, _ => if s.card < count then none else some s
  | fuel + 1, s, k =>
    if s.card < count then
      let w := round100 (c + (k + 1 : ℚ) / 4)
      fracFallbackFuel c count fuel
        (if w ≠ c ∧ w ∉ s then insert w s else s) (k + 1)
    else some s

/-- `generateFractionWrongs(correct, count)` over exact rationals. -/
def generateFractionWrongs (c : ℚ) (count : ℕ) (r : RandStream) :
    Option (Finset ℚ) :=
  fracFallbackFuel c count (count + 1) (fracAttempts c count r 50 ∅) 0

/-- The digit character for `d ∈ 0..9` (`String(d)`). -/
def digitChar (d : ℕ) : Char := Char.ofNat (48 + d)

/-- `'ABCDEF'.replace(ch.toUpperCase(), '')`: the hex alphabet minus the
(upper-cased) character being mutated. -/
def hexPool (ch : Char) : List Char :=
  "ABCDEF".toList.filter fun h => h != ch.toUpper

/-- One character mutation of `generateStringWrongs`: flip a bit
character, bump a digit by `rand(1,9) (mod 10)`, substitute another hex
letter, or fall back to a random digit.  `v` drives the single random
draw the chosen branch makes. -/
def mutateChar (ch : Char) (v : ℕ) : Char :=
  if ch = '0' then '1'
  else if ch = '1' then '0'
  else if ch.isDigit then digitChar ((ch.toNat - 48 + randIn v 1 9) % 10)
  else if ch ∈ "ABCDEFabcdef".toList then
    (hexPool ch).getD (randIn v 0 ((hexPool ch).length - 1)) 'A'
  else digitChar (randIn v 0 9)

/-- The randomized phase of `generateStringWrongs`: pick a random index,
mutate that character, keep the result when it is new and differs from
`correct`.  Strings are modelled as `List Char`;
`substring(0,idx) + repl + substring(idx+1)` is `take idx ++ repl ::
drop (idx+1)`.  When the index is out of range (only possible for
`correct = ""`) the source reads `ch = correct[idx] = undefined`; the
`/[01]/` and `/[0-9]/` tests are false, `/[A-F]/i.test(ch)` coerces `ch`
to the text `"undefined"` (which contains `d`, `e`, `f`) and is true,
and the branch then calls `ch.toUpperCase()` on `undefined`, which
throws a `TypeError`.  That abort is modelled as `none`. -/
def stringAttempts (c : List Char) (count : ℕ) (r : RandStream) :
    ℕ → Finset (List Char) → Option (Finset (List Char))
  | 0, s => some s
  | n + 1, s =>
    if s.card < count then
      let idx := randIn (r (2 * n)) 0 (c.length - 1)
      match c.get? idx with
      | some ch =>
        let repl := mutateChar ch (r (2 * n + 1))
        let wrong := c.take idx ++ repl :: c.drop (idx + 1)
        stringAttempts c count r n
          (if wrong ≠ c ∧ wrong ∉ s then insert wrong s else s)
      | none => none
    else some s

/-- `String(m)` for a natural number: decimal digits, most significant
first. -/
def decimalRepr (m : ℕ) : List Char :=
  (Nat.digits 10 m).reverse.map fun d => Char.ofNat (48 + d)

/-- The deterministic fallback loop of `generateStringWrongs`
(`fallback++; w = correct + String(fallback); if (!wrongs.has(w) && w !==
correct) wrongs.add(w)`), with explicit fuel.  `fb` is the current value
of the `fallback` counter. -/
def stringFallbackFuel (c : List Char) (count : ℕ) :
    ℕ → Finset (List Char) → ℕ → Option (Finset (List Char))
  | 0, s, _ => if s.card < count then none else some s
  | fuel + 1, s, fb =>
    if s.card < count then
      let w := c ++ decimalRepr (fb + 1)
      stringFallbackFuel c count fuel
        (if w ∉ s ∧ w ≠ c then insert w s else s) (fb + 1)
    else some s

/-- `generateStringWrongs(correct, count)`: 50 mutation attempts (which
abort — `none` — exactly when the source throws, i.e. on the empty
string with a still-unfilled set), then the append-a-suffix fallback.
Fuel `2 * count + 1` is enough for the fallback (proved below). -/
def generateStringWrongs (c : List Char) (count : ℕ) (r : RandStream) :
    Option (Finset (List Char)) :=
  match stringAttempts c count r 50 ∅ with
  | some s => stringFallbackFuel c count (2 * count + 1) s 0
  | none => none

/-- Proof device: decode the decimal digits appended by the string
fallback back into the number (left inverse of `decimalRepr`). -/
def decodeDigits (l : List Char) : ℕ :=
  Nat.ofDigits 10 ((l.map fun ch => ch.toNat - 48).reverse)

/-! ## Theorems -/

/-! ### The shuffle is a permutation -/

theorem randIn_le {v lo hi : ℕ} (h : lo ≤ hi) : randIn v lo hi ≤ hi := by
  unfold randIn
  have h2 : v % (hi + 1 - lo) < hi + 1 - lo := Nat.mod_lt _ (by omega)
  omega

theorem le_randIn (v lo hi : ℕ) : lo ≤ randIn v lo hi := Nat.le_add_right _ _

/-- Replacing position `k` (which holds `y`) by `x` and re-consing `y` is
a permutation of consing `x`: the elementary transposition underlying a
swap with the head. -/
theorem perm_cons_set {α : Type} :
    ∀ (t : List α) (k : ℕ) (x y : α), t[k]? = some y →
      List.Perm (y :: t.set k x) (x :: t)
  | [], k, x, y, h => by simp at h
  | b :: t, 0, x, y, h => by
      simp only [List.getElem?_cons_zero, Option.some_inj] at h
      simp only [List.set_cons_zero, ← h]
      exact List.Perm.swap x b t
  | b :: t, k + 1, x, y, h => by
      simp only [List.getElem?_cons_succ] at h
      have ih := perm_cons_set t k x y h
      simp only [List.set_cons_succ]
      exact (List.Perm.swap b y (t.set k x)).trans
        ((ih.cons b).trans (List.Perm.swap x b t))

/-- A two-position swap (written with `List.set`) permutes the list. -/
theorem perm_set_set {α : Type} :
    ∀ (l : List α) (i j : ℕ) (x y : α), l[i]? = some x → l[j]? = some y →
      List.Perm ((l.set i y).set j x) l
  | [], i, j, x, y, h1, _ => by simp at h1
  | a :: t, 0, 0, x, y, h1, h2 => by
      simp only [List.getElem?_cons_zero, Option.some_inj] at h1 h2
      subst h1; subst h2
      simp
  | a :: t, 0, j + 1, x, y, h1, h2 => by
      simp only [List.getElem?_cons_zero, Option.some_inj] at h1
      simp only [List.getElem?_cons_succ] at h2
      simp only [List.set_cons_zero, List.set_cons_succ, ← h1]
      exact perm_cons_set t j a y h2
  | a :: t, i + 1, 0, x, y, h1, h2 => by
      simp only [List.getElem?_cons_zero, Option.some_inj] at h2
      simp only [List.getElem?_cons_succ] at h1
      simp only [List.set_cons_succ, List.set_cons_zero, ← h2]
      exact perm_cons_set t i a x h1
  | a :: t, i + 1, j + 1, x, y, h1, h2 => by
      simp only [List.getElem?_cons_succ] at h1 h2
      simp only [List.set_cons_succ]
      exact (perm_set_set t i j x y h1 h2).cons a

theorem listSwap_perm {α : Type} (l : List α) (i j : ℕ) :
    List.Perm (listSwap l i j) l := by
  unfold listSwap
  cases h1 : l[i]? with
  | none => exact List.Perm.refl l
  | some x =>
    cases h2 : l[j]? with
    | none => exact List.Perm.refl l
    | some y => exact perm_set_set l i j x y h1 h2

theorem fyLoop_perm {α : Type} (r : RandStream) :
    ∀ (n : ℕ) (a : List α), List.Perm (fyLoop r n a) a
  | 0, a => List.Perm.refl a
  | n + 1, a =>
      (fyLoop_perm r n (listSwap a (n + 1) (r (n + 1) % (n + 2)))).trans
        (listSwap_perm a (n + 1) (r (n + 1) % (n + 2)))

/-- The shuffle returns a permutation of its input, whatever the random
draws were. -/
theorem shuffle_perm {α : Type} (r : RandStream) (a : List α) :
    List.Perm (shuffle r a) a :=
  fyLoop_perm r (a.length - 1) a

theorem shuffle_length {α : Type} (r : RandStream) (a : List α) :
    (shuffle r a).length = a.length :=
  (shuffle_perm r a).length_eq

/-! ### C2: choice-label uniqueness -/

/-- **C2.** For every generated Question the 4 choice labels are pairwise
distinct and exactly one choice is the correct value, on both paths:
(math path) whenever the wrong answers handed to the choice assembly are
3 pairwise-distinct values none of which equals the answer — which is
exactly what the synthesizers guarantee (C3) and what every hand-authored
`wrongs` list in `mathData.js` satisfies — the 4 assembled choices have
pairwise-distinct labels and `isCorrect` holds for exactly the
answer-labelled one; (vocabulary path) whenever the pool's spellings are
pairwise distinct and at least 3 words differ from the correct one,
`generateChoices` returns 4 words with pairwise-distinct spellings among
which the correct spelling occurs exactly once. -/
theorem c2_question_choice_uniqueness :
    (∀ (α : Type) (r : RandStream) (answer : α) (wrongs : List α),
      wrongs.Nodup → answer ∉ wrongs → wrongs.length = 3 →
      (mkMathChoices r answer wrongs).length = 4 ∧
      ((mkMathChoices r answer wrongs).map Choice.label).Nodup ∧
      (mkMathChoices r answer wrongs).filter (fun ch => ch.isCorrect) =
        [⟨answer, true⟩]) ∧
    (∀ (r₁ r₂ : RandStream) (correct : Word) (allWords : List Word),
      ((allWords.filter fun w => w.en != correct.en).map Word.en).Nodup →
      3 ≤ (allWords.filter fun w => w.en != correct.en).length →
      (generateChoices r₁ r₂ correct allWords).length = 4 ∧
      ((generateChoices r₁ r₂ correct allWords).map Word.en).Nodup ∧
      ((generateChoices r₁ r₂ correct allWords).map Word.en).count
        correct.en = 1) := by
  constructor
  · intro α r answer wrongs hnd hmem hlen
    have hperm : List.Perm (mkMathChoices r answer wrongs)
        (⟨answer, true⟩ :: wrongs.map fun w => ⟨w, false⟩) :=
      shuffle_perm r _
    refine ⟨?_, ?_, ?_⟩
    · rw [hperm.length_eq]
      simp [hlen]
    · have hbase : ((⟨answer, true⟩ :: wrongs.map fun w =>
          (⟨w, false⟩ : Choice α)).map Choice.label) = answer :: wrongs := by
        simp only [List.map_cons, List.map_map]
        rw [show (Choice.label ∘ fun w : α => (⟨w, false⟩ : Choice α)) = id
          from rfl, List.map_id]
      have := (hperm.map Choice.label).nodup_iff
      rw [this, hbase]
      exact List.nodup_cons.mpr ⟨hmem, hnd⟩
    · have hfilter : ((⟨answer, true⟩ :: wrongs.map fun w =>
          (⟨w, false⟩ : Choice α)).filter fun ch => ch.isCorrect) =
          [⟨answer, true⟩] := by
        simp only [List.filter_cons_of_pos]
        rw [List.filter_eq_nil_iff.mpr]
        intro ch hch
        rcases List.mem_map.mp hch with ⟨w, _, rfl⟩
        simp
      have hp := hperm.filter fun ch => ch.isCorrect
      rw [hfilter] at hp
      exact List.perm_singleton.mp hp
  · intro r₁ r₂ correct allWords hnd hlen
    have hgen : generateChoices r₁ r₂ correct allWords =
        shuffle r₂ (correct ::
          (shuffle r₁ (allWords.filter fun w =>
            w.en != correct.en)).take 3) := rfl
    have hperm1 : List.Perm
        (shuffle r₁ (allWords.filter fun w => w.en != correct.en))
        (allWords.filter fun w => w.en != correct.en) := shuffle_perm r₁ _
    have hsub : List.Sublist
        ((shuffle r₁ (allWords.filter fun w => w.en != correct.en)).take 3)
        (shuffle r₁ (allWords.filter fun w => w.en != correct.en)) :=
      List.take_sublist 3 _
    have hwlen :
        ((shuffle r₁ (allWords.filter fun w => w.en != correct.en)).take
          3).length = 3 := by
      rw [List.length_take, hperm1.length_eq]
      omega
    have hwnodup : (((shuffle r₁ (allWords.filter fun w =>
        w.en != correct.en)).take 3).map Word.en).Nodup := by
      have h1 : ((shuffle r₁ (allWords.filter fun w =>
          w.en != correct.en)).map Word.en).Nodup :=
        (hperm1.map Word.en).nodup_iff.mpr hnd
      exact h1.sublist (hsub.map Word.en)
    have hwne : ∀ w ∈ (shuffle r₁ (allWords.filter fun w =>
        w.en != correct.en)).take 3, w.en ≠ correct.en := by
      intro w hw
      have hw2 : w ∈ allWords.filter fun w => w.en != correct.en :=
        (hperm1.mem_iff).mp (hsub.subset hw)
      have := (List.mem_filter.mp hw2).2
      exact bne_iff_ne.mp this
    have hperm2 : List.Perm (generateChoices r₁ r₂ correct allWords)
        (correct :: (shuffle r₁ (allWords.filter fun w =>
          w.en != correct.en)).take 3) := by
      rw [hgen]; exact shuffle_perm r₂ _
    have hennotmem : correct.en ∉ ((shuffle r₁ (allWords.filter fun w =>
        w.en != correct.en)).take 3).map Word.en := by
      intro hc
      rcases List.mem_map.mp hc with ⟨w, hw, hwe⟩
      exact hwne w hw hwe
    refine ⟨?_, ?_, ?_⟩
    · rw [hperm2.length_eq]
      simp [hwlen]
    · rw [(hperm2.map Word.en).nodup_iff]
      simp only [List.map_cons]
      exact List.nodup_cons.mpr ⟨hennotmem, hwnodup⟩
    · rw [(hperm2.map Word.en).count_eq]
      simp only [List.map_cons]
      rw [List.count_cons_self, List.count_eq_zero.mpr hennotmem]

/-- Witness for C2 at concrete inputs: answer 0 with wrongs `[1, 2, 3]`
on the math path, and a 4-word pool on the vocabulary path. -/
theorem c2_question_choice_uniqueness_witness :
    ((mkMathChoices (fun _ => 0) (0 : ℤ) [1, 2, 3]).length = 4 ∧
      ((mkMathChoices (fun _ => 0) (0 : ℤ) [1, 2, 3]).map
        Choice.label).Nodup ∧
      (mkMathChoices (fun _ => 0) (0 : ℤ) [1, 2, 3]).filter
        (fun ch => ch.isCorrect) = [⟨0, true⟩]) ∧
    ((generateChoices (fun _ => 0) (fun _ => 0) ⟨"a", "", ""⟩
        [⟨"a", "", ""⟩, ⟨"b", "", ""⟩, ⟨"c", "", ""⟩, ⟨"d", "", ""⟩]).length
        = 4 ∧
      ((generateChoices (fun _ => 0) (fun _ => 0) ⟨"a", "", ""⟩
        [⟨"a", "", ""⟩, ⟨"b", "", ""⟩, ⟨"c", "", ""⟩,
          ⟨"d", "", ""⟩]).map Word.en).Nodup ∧
      ((generateChoices (fun _ => 0) (fun _ => 0) ⟨"a", "", ""⟩
        [⟨"a", "", ""⟩, ⟨"b", "", ""⟩, ⟨"c", "", ""⟩,
          ⟨"d", "", ""⟩]).map Word.en).count "a" = 1) :=
  ⟨c2_question_choice_uniqueness.1 ℤ (fun _ => 0) 0 [1, 2, 3]
      (by decide) (by decide) rfl,
    c2_question_choice_uniqueness.2 (fun _ => 0) (fun _ => 0) ⟨"a", "", ""⟩
      [⟨"a", "", ""⟩, ⟨"b", "", ""⟩, ⟨"c", "", ""⟩, ⟨"d", "", ""⟩]
      (by decide) (by decide)⟩

/-! ### C1, C6, C7: answer handling -/

theorem selected_isSome_false {s : Session} (h : s.selected = none) :
    s.selected.isSome = false := by rw [h]; rfl

/-- Guard lemma: once `selected` is non-null, `handleAnswer` returns the
state unchanged. -/
theorem handleAnswer_answered (d : Difficulty) (s : Session)
    (choice : Option Word) (h : s.selected ≠ none) :
    handleAnswer d s choice = s := by
  have hb : s.selected.isSome = true := Option.isSome_iff_ne_none.mpr h
  unfold handleAnswer
  rw [hb]
  simp

/-- Unfolding lemma: `handleAnswer` on an unanswered question with an
incorrect (or null) choice. -/
theorem handleAnswer_incorrect (d : Difficulty) (s : Session)
    (choice : Option Word) (hsel : s.selected = none)
    (hc : answerCorrect s choice = false) :
    handleAnswer d s choice =
      { s with
        timerOn := false
        selected := some (choice.getD timeoutWord)
        score := s.score
        streak := 0
        bestStreak := s.bestStreak
        results := s.results ++
          [⟨(s.questions.getD s.current default).word, choice, false, 0,
            d.time - s.timeLeft⟩] } := by
  simp [handleAnswer, selected_isSome_false hsel, hc]

/-- Unfolding lemma: `handleAnswer` on an unanswered question with a
correct choice. -/
theorem handleAnswer_correct (d : Difficulty) (s : Session)
    (choice : Option Word) (hsel : s.selected = none)
    (hc : answerCorrect s choice = true) :
    handleAnswer d s choice =
      { s with
        timerOn := false
        selected := some (choice.getD timeoutWord)
        score := s.score + (d.points +
          (if 6 * d.time < 10 * s.timeLeft then s.timeLeft * 2 else 0) +
          (if 3 ≤ s.streak + 1 then (s.streak + 1) * 5 else 0))
        streak := s.streak + 1
        bestStreak := max s.bestStreak (s.streak + 1)
        results := s.results ++
          [⟨(s.questions.getD s.current default).word, choice, true,
            d.points +
              (if 6 * d.time < 10 * s.timeLeft then s.timeLeft * 2 else 0) +
              (if 3 ≤ s.streak + 1 then (s.streak + 1) * 5 else 0),
            d.time - s.timeLeft⟩] } := by
  simp [handleAnswer, selected_isSome_false hsel, hc]

/-- **C1.** For every answer submission on an unanswered question: an
incorrect answer (including the timeout/null submission) awards 0 points
and resets the streak to 0; a correct answer sets the streak to
`priorStreak + 1` and awards `basePoints + speedBonus + streakBonus`,
where `speedBonus = floor(timeRemaining * 2)` exactly when
`timeRemaining > 0.6 * timeLimit` and `streakBonus = newStreak * 5`
exactly when `newStreak >= 3`; in particular a correct answer awards at
least `basePoints`. -/
theorem c1_scoring (d : Difficulty) (s : Session) (choice : Option Word)
    (hsel : s.selected = none) :
    answerCorrect s none = false ∧
    (answerCorrect s choice = false →
      (handleAnswer d s choice).score = s.score ∧
      (handleAnswer d s choice).streak = 0 ∧
      ∃ e, (handleAnswer d s choice).results = s.results ++ [e] ∧
        e.points = 0 ∧ e.correct = false) ∧
    (answerCorrect s choice = true →
      (handleAnswer d s choice).streak = s.streak + 1 ∧
      (handleAnswer d s choice).score = s.score + (d.points +
        (if 6 * d.time < 10 * s.timeLeft then s.timeLeft * 2 else 0) +
        (if 3 ≤ s.streak + 1 then (s.streak + 1) * 5 else 0)) ∧
      s.score + d.points ≤ (handleAnswer d s choice).score) := by
  refine ⟨rfl, ?_, ?_⟩
  · intro h
    rw [handleAnswer_incorrect d s choice hsel h]
    exact ⟨rfl, rfl, _, rfl, rfl, rfl⟩
  · intro h
    rw [handleAnswer_correct d s choice hsel h]
    refine ⟨rfl, rfl, ?_⟩
    have h1 : 0 ≤ (if 6 * d.time < 10 * s.timeLeft
        then s.timeLeft * 2 else 0) := Nat.zero_le _
    have h2 : 0 ≤ (if 3 ≤ s.streak + 1 then (s.streak + 1) * 5 else 0) :=
      Nat.zero_le _
    show s.score + d.points ≤ s.score + _
    omega

/-- Witness for C1 on a concrete mid-round state (medium tier, streak 2,
8 seconds left): a correct third answer in a row awards
`20 + floor(8*2) + 3*5 = 51` points. -/
theorem c1_scoring_witness :
    (let s : Session := ⟨[⟨⟨"cat", "k", "h"⟩, [⟨"cat", "k", "h"⟩]⟩], 0, 100,
        2, 2, none, 8, [], true⟩
     let choice : Option Word := some ⟨"cat", "k", "h"⟩
     answerCorrect s none = false ∧
     (answerCorrect s choice = false →
       (handleAnswer DIFFICULTY_medium s choice).score = s.score ∧
       (handleAnswer DIFFICULTY_medium s choice).streak = 0 ∧
       ∃ e, (handleAnswer DIFFICULTY_medium s choice).results =
           s.results ++ [e] ∧ e.points = 0 ∧ e.correct = false) ∧
     (answerCorrect s choice = true →
       (handleAnswer DIFFICULTY_medium s choice).streak = s.streak + 1 ∧
       (handleAnswer DIFFICULTY_medium s choice).score = s.score +
         (DIFFICULTY_medium.points +
          (if 6 * DIFFICULTY_medium.time < 10 * s.timeLeft
           then s.timeLeft * 2 else 0) +
          (if 3 ≤ s.streak + 1 then (s.streak + 1) * 5 else 0)) ∧
       s.score + DIFFICULTY_medium.points ≤
         (handleAnswer DIFFICULTY_medium s choice).score)) :=
  c1_scoring DIFFICULTY_medium _ _ rfl

/-- **C6.** When the countdown fires with the question unanswered and the
clock at its final second, the transition equals `handleAnswer` on a
`null` choice with the clock zeroed: scored as incorrect (0 points,
streak reset to 0), one answer record appended, and the timer stopped. -/
theorem c6_timeout_is_null_submission (d : Difficulty) (s : Session)
    (hsel : s.selected = none) (htime : s.timeLeft ≤ 1) :
    tick d s = { handleAnswer d s none with timeLeft := 0 } ∧
    (tick d s).score = s.score ∧
    (tick d s).streak = 0 ∧
    (tick d s).selected = some timeoutWord ∧
    (tick d s).timerOn = false ∧
    ∃ e, (tick d s).results = s.results ++ [e] ∧
      e.correct = false ∧ e.points = 0 ∧ e.chosen = none := by
  have htick : tick d s = { handleAnswer d s none with timeLeft := 0 } := by
    simp only [tick, if_pos htime]
  refine ⟨htick, ?_⟩
  rw [htick, handleAnswer_incorrect d s none hsel rfl]
  exact ⟨rfl, rfl, rfl, rfl, _, rfl, rfl, rfl, rfl⟩

/-- Witness for C6: a one-question round about to time out. -/
theorem c6_timeout_is_null_submission_witness :
    (let s : Session := ⟨[⟨⟨"cat", "k", "h"⟩, [⟨"cat", "k", "h"⟩]⟩], 0, 30,
        1, 1, none, 1, [], true⟩
     tick DIFFICULTY_easy s =
       { handleAnswer DIFFICULTY_easy s none with timeLeft := 0 } ∧
     (tick DIFFICULTY_easy s).score = s.score ∧
     (tick DIFFICULTY_easy s).streak = 0 ∧
     (tick DIFFICULTY_easy s).selected = some timeoutWord ∧
     (tick DIFFICULTY_easy s).timerOn = false ∧
     ∃ e, (tick DIFFICULTY_easy s).results = s.results ++ [e] ∧
       e.correct = false ∧ e.points = 0 ∧ e.chosen = none) :=
  c6_timeout_is_null_submission DIFFICULTY_easy _ rfl (by decide)

/-- **C7.** At most one submission takes effect per question: once an
answer is recorded (`selected` non-null), any further `handleAnswer` call
is a no-op returning the state unchanged, a late countdown fire changes
none of score/streak/results/selected, and a first submission always
arms the guard (so a second call after it is a no-op). -/
theorem c7_single_submission (d : Difficulty) (s : Session)
    (choice choice2 : Option Word) :
    (s.selected ≠ none → handleAnswer d s choice = s) ∧
    (s.selected ≠ none →
      (tick d s).score = s.score ∧ (tick d s).streak = s.streak ∧
      (tick d s).results = s.results ∧ (tick d s).selected = s.selected) ∧
    (s.selected = none →
      (handleAnswer d s choice).selected ≠ none ∧
      handleAnswer d (handleAnswer d s choice) choice2 =
        handleAnswer d s choice) := by
  refine ⟨handleAnswer_answered d s choice, ?_, ?_⟩
  · intro h
    unfold tick
    split
    · rw [handleAnswer_answered d s none h]
      exact ⟨rfl, rfl, rfl, rfl⟩
    · exact ⟨rfl, rfl, rfl, rfl⟩
  · intro h
    have hsome : (handleAnswer d s choice).selected ≠ none := by
      rcases hb : answerCorrect s choice with _ | _
      · rw [handleAnswer_incorrect d s choice h hb]
        exact Option.some_ne_none _
      · rw [handleAnswer_correct d s choice h hb]
        exact Option.some_ne_none _
    exact ⟨hsome, handleAnswer_answered d _ choice2 hsome⟩

/-- Witness for C7 on a concrete answered state and a concrete
unanswered state. -/
theorem c7_single_submission_witness :
    (let sAns : Session := ⟨[], 0, 10, 1, 1, some ⟨"cat", "k", "h"⟩, 5, [],
        false⟩
     (handleAnswer DIFFICULTY_easy sAns none = sAns) ∧
     ((tick DIFFICULTY_easy sAns).score = sAns.score ∧
      (tick DIFFICULTY_easy sAns).streak = sAns.streak ∧
      (tick DIFFICULTY_easy sAns).results = sAns.results ∧
      (tick DIFFICULTY_easy sAns).selected = sAns.selected)) ∧
    (let sUn : Session := ⟨[⟨⟨"cat", "k", "h"⟩, []⟩], 0, 10, 1, 1, none, 5,
        [], true⟩
     (handleAnswer DIFFICULTY_easy sUn none).selected ≠ none ∧
      handleAnswer DIFFICULTY_easy (handleAnswer DIFFICULTY_easy sUn none)
          (some ⟨"cat", "k", "h"⟩) =
        handleAnswer DIFFICULTY_easy sUn none) :=
  have h := c7_single_submission DIFFICULTY_easy
    ⟨[], 0, 10, 1, 1, some ⟨"cat", "k", "h"⟩, 5, [], false⟩ none
    (some ⟨"cat", "k", "h"⟩)
  have h2 := c7_single_submission DIFFICULTY_easy
    ⟨[⟨⟨"cat", "k", "h"⟩, []⟩], 0, 10, 1, 1, none, 5, [], true⟩ none
    (some ⟨"cat", "k", "h"⟩)
  ⟨⟨h.1 (by decide), h.2.1 (by decide)⟩, h2.2.2 rfl⟩

/-! ### C5: stats merge monotonicity -/

/-- The achievement table has pairwise-distinct ids. -/
theorem achievements_ids_nodup : (ACHIEVEMENTS.map Achievement.id).Nodup := by
  decide

/-- **C5.** The round-completion stats merge is monotone: every numeric
field of the result is ≥ its prior value, the unlock list only grows (the
result is the prior list plus fresh ids only), no id already present is
added again, and — starting from a duplicate-free list — ids stay
pairwise distinct, so an achievement is unlocked at most once. -/
theorem c5_stats_merge_monotone (prev : Stats)
    (roundCorrect bestStreak newStreak score pts : ℕ) (isPerfect : Bool) :
    prev.totalCorrect ≤ (updateStats prev roundCorrect bestStreak newStreak
      score pts isPerfect).totalCorrect ∧
    prev.totalGames ≤ (updateStats prev roundCorrect bestStreak newStreak
      score pts isPerfect).totalGames ∧
    prev.bestStreakEver ≤ (updateStats prev roundCorrect bestStreak
      newStreak score pts isPerfect).bestStreakEver ∧
    prev.totalScore ≤ (updateStats prev roundCorrect bestStreak newStreak
      score pts isPerfect).totalScore ∧
    prev.perfectRounds ≤ (updateStats prev roundCorrect bestStreak
      newStreak score pts isPerfect).perfectRounds ∧
    (∃ newIds, (updateStats prev roundCorrect bestStreak newStreak score
        pts isPerfect).unlockedIds = prev.unlockedIds ++ newIds ∧
      (∀ i ∈ newIds, i ∉ prev.unlockedIds) ∧
      (prev.unlockedIds.Nodup →
        (prev.unlockedIds ++ newIds).Nodup)) := by
  have hfresh : ∀ (u : Stats), ∀ a ∈ ACHIEVEMENTS.filter fun a =>
      !(prev.unlockedIds.contains a.id) && a.check u,
      a.id ∉ prev.unlockedIds := by
    intro u a ha
    have h2 := (List.mem_filter.mp ha).2
    simp only [Bool.and_eq_true, Bool.not_eq_true'] at h2
    intro hmem
    have h5 : prev.unlockedIds.contains a.id = true := List.elem_iff.mpr hmem
    rw [h2.1] at h5
    cases h5
  have hsubl : ∀ (u : Stats), List.Sublist (ACHIEVEMENTS.filter fun a =>
      !(prev.unlockedIds.contains a.id) && a.check u) ACHIEVEMENTS :=
    fun _ => List.filter_sublist _
  simp only [updateStats]
  split <;> split
  · refine ⟨Nat.le_add_right _ _, Nat.le_add_right _ _, le_max_left _ _,
      (Nat.le_add_right _ _).trans (Nat.le_add_right _ _),
      Nat.le_add_right _ _, _, rfl, ?_, ?_⟩
    · intro i hi
      rcases List.mem_map.mp hi with ⟨a, ha, rfl⟩
      exact hfresh _ a ha
    · intro hnd
      rw [List.nodup_append]
      refine ⟨hnd, achievements_ids_nodup.sublist
        ((hsubl _).map Achievement.id), ?_⟩
      intro i hi hj
      rcases List.mem_map.mp hj with ⟨a, ha, rfl⟩
      exact hfresh _ a ha hi
  · refine ⟨Nat.le_add_right _ _, Nat.le_add_right _ _, le_max_left _ _,
      (Nat.le_add_right _ _).trans (Nat.le_add_right _ _),
      Nat.le_add_right _ _, [], (List.append_nil _).symm, by simp, ?_⟩
    intro hnd
    rw [List.append_nil]
    exact hnd
  · refine ⟨Nat.le_add_right _ _, Nat.le_add_right _ _, le_max_left _ _,
      (Nat.le_add_right _ _).trans (Nat.le_add_right _ _),
      Nat.le_add_right _ _, _, rfl, ?_, ?_⟩
    · intro i hi
      rcases List.mem_map.mp hi with ⟨a, ha, rfl⟩
      exact hfresh _ a ha
    · intro hnd
      rw [List.nodup_append]
      refine ⟨hnd, achievements_ids_nodup.sublist
        ((hsubl _).map Achievement.id), ?_⟩
      intro i hi hj
      rcases List.mem_map.mp hj with ⟨a, ha, rfl⟩
      exact hfresh _ a ha hi
  · refine ⟨Nat.le_add_right _ _, Nat.le_add_right _ _, le_max_left _ _,
      (Nat.le_add_right _ _).trans (Nat.le_add_right _ _),
      Nat.le_add_right _ _, [], (List.append_nil _).symm, by simp, ?_⟩
    intro hnd
    rw [List.append_nil]
    exact hnd

/-- Witness for C5 at a concrete prior record and round summary (the
round pushes `totalCorrect` past 100, so achievement `c100` unlocks). -/
theorem c5_stats_merge_monotone_witness :
    (let prev : Stats := ⟨95, 9, 4, 900, 0, ["s5"]⟩
     prev.totalCorrect ≤
       (updateStats prev 10 6 6 180 51 true).totalCorrect ∧
     prev.totalGames ≤ (updateStats prev 10 6 6 180 51 true).totalGames ∧
     prev.bestStreakEver ≤
       (updateStats prev 10 6 6 180 51 true).bestStreakEver ∧
     prev.totalScore ≤ (updateStats prev 10 6 6 180 51 true).totalScore ∧
     prev.perfectRounds ≤
       (updateStats prev 10 6 6 180 51 true).perfectRounds ∧
     (∃ newIds, (updateStats prev 10 6 6 180 51 true).unlockedIds =
         prev.unlockedIds ++ newIds ∧
       (∀ i ∈ newIds, i ∉ prev.unlockedIds) ∧
       (prev.unlockedIds.Nodup → (prev.unlockedIds ++ newIds).Nodup))) :=
  c5_stats_merge_monotone ⟨95, 9, 4, 900, 0, ["s5"]⟩ 10 6 6 180 51 true

/-! ### C8 and C10: stats persistence -/

/-- **C8.** Saving a Stats record and loading it back yields an equal
record, and an absent or unparseable persisted payload loads as the
all-zero default with an empty unlock list (the parse failure is caught,
so nothing propagates to the caller — `loadStats` is total). -/
theorem c8_save_load_roundtrip (s : Stats) :
    loadStats (some (some (encodeStats s))) = s ∧
    loadStats none = ⟨0, 0, 0, 0, 0, []⟩ ∧
    loadStats (some none) = ⟨0, 0, 0, 0, 0, []⟩ ∧
    DEFAULT_STATS = ⟨0, 0, 0, 0, 0, []⟩ :=
  ⟨rfl, rfl, rfl, rfl⟩

/-- **C10.** A payload with only some Stats fields merges field-by-field
over the defaults: every present field keeps its stored value, every
absent field takes its all-zero/empty default. -/
theorem c10_partial_payload_merges_fieldwise (p : PartialStats) :
    ((∀ n, p.totalCorrect = some n →
        (loadStats (some (some p))).totalCorrect = n) ∧
      (p.totalCorrect = none → (loadStats (some (some p))).totalCorrect = 0)) ∧
    ((∀ n, p.totalGames = some n →
        (loadStats (some (some p))).totalGames = n) ∧
      (p.totalGames = none → (loadStats (some (some p))).totalGames = 0)) ∧
    ((∀ n, p.bestStreakEver = some n →
        (loadStats (some (some p))).bestStreakEver = n) ∧
      (p.bestStreakEver = none →
        (loadStats (some (some p))).bestStreakEver = 0)) ∧
    ((∀ n, p.totalScore = some n →
        (loadStats (some (some p))).totalScore = n) ∧
      (p.totalScore = none → (loadStats (some (some p))).totalScore = 0)) ∧
    ((∀ n, p.perfectRounds = some n →
        (loadStats (some (some p))).perfectRounds = n) ∧
      (p.perfectRounds = none →
        (loadStats (some (some p))).perfectRounds = 0)) ∧
    ((∀ l, p.unlockedIds = some l →
        (loadStats (some (some p))).unlockedIds = l) ∧
      (p.unlockedIds = none →
        (loadStats (some (some p))).unlockedIds = [])) := by
  refine ⟨⟨?_, ?_⟩, ⟨?_, ?_⟩, ⟨?_, ?_⟩, ⟨?_, ?_⟩, ⟨?_, ?_⟩, ⟨?_, ?_⟩⟩ <;>
    intros <;>
    simp_all [loadStats, mergeStats, DEFAULT_STATS]

/-- Witness for C10 on a payload holding only `totalCorrect` and
`unlockedIds` (as an older version might have written). -/
theorem c10_partial_payload_merges_fieldwise_witness :
    (loadStats (some (some ⟨some 7, none, none, none, none,
        some ["s5"]⟩))).totalCorrect = 7 ∧
    (loadStats (some (some ⟨some 7, none, none, none, none,
        some ["s5"]⟩))).totalGames = 0 ∧
    (loadStats (some (some ⟨some 7, none, none, none, none,
        some ["s5"]⟩))).unlockedIds = ["s5"] :=
  have h := c10_partial_payload_merges_fieldwise
    ⟨some 7, none, none, none, none, some ["s5"]⟩
  ⟨h.1.1 7 rfl, h.2.1.2 rfl, h.2.2.2.2.2.1 ["s5"] rfl⟩

/-! ### C9: round construction truncates to the pool -/

/-- **C9.** `startGame` never fails: it returns exactly
`min roundSize poolSize` questions, and the words they are built from
are drawn from the pool without replacement (as a multiset they embed
into the pool, so each question uses a distinct pool entry). -/
theorem c9_round_truncates_to_pool (rp : RandStream)
    (rc : ℕ → RandStream × RandStream) (pool allWords : List Word)
    (n : ℕ) :
    (startGame rp rc pool allWords n).length = min n pool.length ∧
    ((startGame rp rc pool allWords n).map Question.word) =
      (shuffle rp pool).take n ∧
    List.Subperm ((startGame rp rc pool allWords n).map Question.word)
      pool := by
  have hmap : ((startGame rp rc pool allWords n).map Question.word) =
      (shuffle rp pool).take n := by
    unfold startGame
    rw [List.mapIdx_eq_enum_map, List.map_map]
    exact List.enum_map_snd _
  refine ⟨?_, hmap, ?_⟩
  · have := congrArg List.length hmap
    rw [List.length_map, List.length_take, shuffle_length] at this
    exact this
  · rw [hmap]
    exact ((List.take_sublist n _).subperm).trans
      (shuffle_perm rp pool).subperm


/-! ### C3, C4: distractor synthesis -/

/-- The randomized phase never adds the correct value and never exceeds
`count` elements. -/
theorem awAttempts_inv (c : ℤ) (count : ℕ) (r : RandStream) :
    ∀ (n : ℕ) (s : Finset ℤ), c ∉ s → s.card ≤ count →
      c ∉ awAttempts c count r n s ∧
        (awAttempts c count r n s).card ≤ count := by
  intro n
  induction n with
  | zero => intro s h1 h2; exact ⟨h1, h2⟩
  | succ n ih =>
    intro s h1 h2
    simp only [awAttempts]
    by_cases hlt : s.card < count
    · rw [if_pos hlt]
      by_cases hcond : c + awOffset c (r (2 * n)) (r (2 * n + 1)) ≠ c ∧
          c + awOffset c (r (2 * n)) (r (2 * n + 1)) ∉ s
      · rw [if_pos hcond]
        apply ih
        · intro hmem
          rcases Finset.mem_insert.mp hmem with h | h
          · exact hcond.1 h.symm
          · exact h1 h
        · rw [Finset.card_insert_of_not_mem hcond.2]
          omega
      · rw [if_neg hcond]
        exact ih s h1 h2
    · rw [if_neg hlt]
      exact ⟨h1, h2⟩

/-- Fuel-sufficiency of the integer fallback loop: with any fuel
exceeding `(count - |s|) + |{x ∈ s : c + f + 1 ≤ x}|`, the loop returns
`some R` with `|R| = count` and `c ∉ R`.  The second measure summand
counts the elements of `s` that can still collide with a future upward
candidate; every failing step strictly consumes it. -/
theorem intFallbackFuel_spec (c : ℤ) (count : ℕ) :
    ∀ (fuel : ℕ) (s : Finset ℤ) (f : ℕ), s.card ≤ count → c ∉ s →
      (count - s.card) +
        (s.filter fun x => c + (f + 1 : ℤ) ≤ x).card < fuel →
      ∃ R, intFallbackFuel c count fuel s f = some R ∧
        R.card = count ∧ c ∉ R := by
  intro fuel
  induction fuel with
  | zero => intro s f _ _ h3; exact absurd h3 (by omega)
  | succ fuel ih =>
    intro s f hcard hc hfuel
    by_cases hlt : s.card < count
    · simp only [intFallbackFuel]
      rw [if_pos hlt]
      have hw1c : c + (f + 1 : ℤ) ≠ c := by omega
      have hw2c : c - (f + 1 : ℤ) ≠ c := by omega
      have hmono : ∀ x : ℤ, c + (f + 1 + 1 : ℤ) ≤ x → c + (f + 1 : ℤ) ≤ x := by
        intro x hx; omega
      by_cases hm1 : c + (f + 1 : ℤ) ∈ s
      · rw [if_neg (by simp [hm1])]
        by_cases hm2 : c - (f + 1 : ℤ) ∈ s
        · rw [if_neg (by simp [hm2])]
          apply ih s (f + 1) hcard hc
          have hsub : (s.filter fun x => c + ((f + 1 : ℕ) + 1 : ℤ) ≤ x) ⊆
              (s.filter fun x => c + (f + 1 : ℤ) ≤ x) := by
            intro x hx
            rw [Finset.mem_filter] at hx ⊢
            refine ⟨hx.1, ?_⟩
            have := hx.2
            push_cast at this ⊢
            omega
          have hssub : (s.filter fun x => c + ((f + 1 : ℕ) + 1 : ℤ) ≤ x) ⊂
              (s.filter fun x => c + (f + 1 : ℤ) ≤ x) := by
            rw [Finset.ssubset_iff_of_subset hsub]
            refine ⟨c + (f + 1 : ℤ), ?_, ?_⟩
            · rw [Finset.mem_filter]
              exact ⟨hm1, le_refl _⟩
            · rw [Finset.mem_filter]
              push_neg
              intro _
              push_cast
              omega
          have := Finset.card_lt_card hssub
          omega
        · rw [if_pos ⟨hw2c, hm2⟩]
          apply ih (insert (c - (f + 1 : ℤ)) s) (f + 1)
          · rw [Finset.card_insert_of_not_mem hm2]; omega
          · intro hmem
            rcases Finset.mem_insert.mp hmem with h | h
            · exact hw2c h.symm
            · exact hc h
          · rw [Finset.card_insert_of_not_mem hm2]
            have hfsub : ((insert (c - (f + 1 : ℤ)) s).filter
                fun x => c + ((f + 1 : ℕ) + 1 : ℤ) ≤ x) ⊆
                (s.filter fun x => c + (f + 1 : ℤ) ≤ x) := by
              intro x hx
              rw [Finset.mem_filter] at hx ⊢
              rcases Finset.mem_insert.mp hx.1 with h | h
              · exfalso
                have := hx.2
                rw [h] at this
                simp only [Nat.cast_add, Nat.cast_one] at this
                omega
              · refine ⟨h, ?_⟩
                have := hx.2
                simp only [Nat.cast_add, Nat.cast_one] at this
                omega
            have := Finset.card_le_card hfsub
            omega
      · rw [if_pos ⟨hw1c, hm1⟩]
        apply ih (insert (c + (f + 1 : ℤ)) s) (f + 1)
        · rw [Finset.card_insert_of_not_mem hm1]; omega
        · intro hmem
          rcases Finset.mem_insert.mp hmem with h | h
          · exact hw1c h.symm
          · exact hc h
        · rw [Finset.card_insert_of_not_mem hm1]
          have hfsub : ((insert (c + (f + 1 : ℤ)) s).filter
              fun x => c + ((f + 1 : ℕ) + 1 : ℤ) ≤ x) ⊆
              (s.filter fun x => c + (f + 1 : ℤ) ≤ x) := by
            intro x hx
            rw [Finset.mem_filter] at hx ⊢
            rcases Finset.mem_insert.mp hx.1 with h | h
            · exfalso
              have := hx.2
              rw [h] at this
              simp only [Nat.cast_add, Nat.cast_one] at this
              omega
            · refine ⟨h, ?_⟩
              have := hx.2
              simp only [Nat.cast_add, Nat.cast_one] at this
              omega
          have := Finset.card_le_card hfsub
          omega
    · simp only [intFallbackFuel]
      rw [if_neg hlt]
      exact ⟨s, rfl, by omega, hc⟩

/-- The integer synthesizer meets its contract: exactly `count` pairwise
distinct values (a `Finset`), none equal to `correct`. -/
theorem generateWrongAnswers_spec (c : ℤ) (count : ℕ) (r : RandStream) :
    ∃ R, generateWrongAnswers c count r = some R ∧
      R.card = count ∧ c ∉ R := by
  have h0 := awAttempts_inv c count r 50 ∅ (Finset.not_mem_empty c)
    (by simp)
  refine intFallbackFuel_spec c count (count + 1) _ 0 h0.2 h0.1 ?_
  have hle := Finset.card_filter_le (awAttempts c count r 50 ∅)
    (fun x : ℤ => c + (((0 : ℕ) : ℤ) + 1) ≤ x)
  omega


/-- Adding one more quarter step moves the 2-decimal rounding up by
exactly `1/4` (because `round (x + 25) = round x + 25`). -/
theorem round100_step (c q : ℚ) :
    round100 (c + (q + 1) / 4) = round100 (c + q / 4) + 1 / 4 := by
  unfold round100
  have harg : (c + (q + 1) / 4) * 100 =
      (c + q / 4) * 100 + ((25 : ℤ) : ℚ) := by
    push_cast
    ring
  rw [harg, round_add_int]
  push_cast
  ring

/-- A fallback candidate never equals the correct value: if `100 * c` is
an integer the rounding is exact and the candidate sits strictly above
`c`; otherwise the candidate has 2 decimals and `c` does not. -/
theorem round100_ne (c : ℚ) (k : ℕ) :
    round100 (c + ((k : ℚ) + 1) / 4) ≠ c := by
  by_cases hc : ∃ m : ℤ, c * 100 = (m : ℚ)
  · rcases hc with ⟨m, hm⟩
    have harg : (c + ((k : ℚ) + 1) / 4) * 100 =
        ((m + 25 * ((k : ℤ) + 1) : ℤ) : ℚ) := by
      push_cast
      rw [← hm]
      ring
    unfold round100
    rw [harg, round_intCast]
    intro heq
    have h100 : (((m + 25 * ((k : ℤ) + 1) : ℤ) : ℚ)) = c * 100 := by
      rw [div_eq_iff (by norm_num : (100 : ℚ) ≠ 0)] at heq
      exact heq
    rw [hm] at h100
    have : ((m + 25 * ((k : ℤ) + 1) : ℤ) : ℚ) ≠ (m : ℚ) := by
      intro h
      have := Int.cast_injective h
      omega
    exact this h100
  · intro heq
    apply hc
    refine ⟨round ((c + ((k : ℚ) + 1) / 4) * 100), ?_⟩
    unfold round100 at heq
    rw [div_eq_iff (by norm_num : (100 : ℚ) ≠ 0)] at heq
    exact heq.symm

/-- The randomized phase of the fraction synthesizer never adds the
correct value and never exceeds `count` elements. -/
theorem fracAttempts_inv (c : ℚ) (count : ℕ) (r : RandStream) :
    ∀ (n : ℕ) (s : Finset ℚ), c ∉ s → s.card ≤ count →
      c ∉ fracAttempts c count r n s ∧
        (fracAttempts c count r n s).card ≤ count := by
  intro n
  induction n with
  | zero => intro s h1 h2; exact ⟨h1, h2⟩
  | succ n ih =>
    intro s h1 h2
    simp only [fracAttempts]
    by_cases hlt : s.card < count
    · rw [if_pos hlt]
      by_cases hzero : ((randIn (r n) 1 8 : ℚ) - 4) / 4 = 0
      · rw [if_pos hzero]
        exact ih s h1 h2
      · rw [if_neg hzero]
        by_cases hcond : round100 (c + ((randIn (r n) 1 8 : ℚ) - 4) / 4) ≠ c ∧
            round100 (c + ((randIn (r n) 1 8 : ℚ) - 4) / 4) ∉ s
        · rw [if_pos hcond]
          apply ih
          · intro hmem
            rcases Finset.mem_insert.mp hmem with h | h
            · exact hcond.1 h.symm
            · exact h1 h
          · rw [Finset.card_insert_of_not_mem hcond.2]
            omega
        · rw [if_neg hcond]
          exact ih s h1 h2
    · rw [if_neg hlt]
      exact ⟨h1, h2⟩

/-- Fuel-sufficiency of the fraction fallback loop, by the same
collision-consuming measure as the integer loop: the candidates climb in
exact `1/4` steps, so a failing step removes its colliding element from
the measure. -/
theorem fracFallbackFuel_spec (c : ℚ) (count : ℕ) :
    ∀ (fuel : ℕ) (s : Finset ℚ) (k : ℕ), s.card ≤ count → c ∉ s →
      (count - s.card) +
        (s.filter fun x => round100 (c + ((k : ℚ) + 1) / 4) ≤ x).card < fuel →
      ∃ R, fracFallbackFuel c count fuel s k = some R ∧
        R.card = count ∧ c ∉ R := by
  intro fuel
  induction fuel with
  | zero => intro s k _ _ h3; exact absurd h3 (by omega)
  | succ fuel ih =>
    intro s k hcard hc hfuel
    have hwc : round100 (c + ((k : ℚ) + 1) / 4) ≠ c := round100_ne c k
    have hstep : round100 (c + (((k : ℕ) + 1 : ℕ) + 1 : ℚ) / 4) =
        round100 (c + ((k : ℚ) + 1) / 4) + 1 / 4 := by
      push_cast
      exact round100_step c ((k : ℚ) + 1)
    by_cases hlt : s.card < count
    · simp only [fracFallbackFuel]
      rw [if_pos hlt]
      by_cases hm : round100 (c + ((k : ℚ) + 1) / 4) ∈ s
      · rw [if_neg (by simp [hm])]
        apply ih s (k + 1) hcard hc
        have hsub : (s.filter fun x =>
            round100 (c + (((k : ℕ) + 1 : ℕ) + 1 : ℚ) / 4) ≤ x) ⊆
            (s.filter fun x => round100 (c + ((k : ℚ) + 1) / 4) ≤ x) := by
          intro x hx
          rw [Finset.mem_filter] at hx ⊢
          refine ⟨hx.1, ?_⟩
          have h2 := hx.2
          rw [hstep] at h2
          linarith
        have hssub : (s.filter fun x =>
            round100 (c + (((k : ℕ) + 1 : ℕ) + 1 : ℚ) / 4) ≤ x) ⊂
            (s.filter fun x => round100 (c + ((k : ℚ) + 1) / 4) ≤ x) := by
          rw [Finset.ssubset_iff_of_subset hsub]
          refine ⟨round100 (c + ((k : ℚ) + 1) / 4), ?_, ?_⟩
          · rw [Finset.mem_filter]
            exact ⟨hm, le_refl _⟩
          · rw [Finset.mem_filter]
            push_neg
            intro _
            rw [hstep]
            linarith
        have := Finset.card_lt_card hssub
        omega
      · rw [if_pos ⟨hwc, hm⟩]
        apply ih (insert (round100 (c + ((k : ℚ) + 1) / 4)) s) (k + 1)
        · rw [Finset.card_insert_of_not_mem hm]; omega
        · intro hmem
          rcases Finset.mem_insert.mp hmem with h | h
          · exact hwc h.symm
          · exact hc h
        · rw [Finset.card_insert_of_not_mem hm]
          have hfsub : ((insert (round100 (c + ((k : ℚ) + 1) / 4)) s).filter
              fun x => round100 (c + (((k : ℕ) + 1 : ℕ) + 1 : ℚ) / 4) ≤ x) ⊆
              (s.filter fun x => round100 (c + ((k : ℚ) + 1) / 4) ≤ x) := by
            intro x hx
            rw [Finset.mem_filter] at hx ⊢
            have h2 := hx.2
            rw [hstep] at h2
            rcases Finset.mem_insert.mp hx.1 with h | h
            · exfalso
              rw [h] at h2
              linarith
            · exact ⟨h, by linarith⟩
          have := Finset.card_le_card hfsub
          omega
    · simp only [fracFallbackFuel]
      rw [if_neg hlt]
      exact ⟨s, rfl, by omega, hc⟩

/-- The fraction synthesizer meets its contract. -/
theorem generateFractionWrongs_spec (c : ℚ) (count : ℕ) (r : RandStream) :
    ∃ R, generateFractionWrongs c count r = some R ∧
      R.card = count ∧ c ∉ R := by
  have h0 := fracAttempts_inv c count r 50 ∅ (Finset.not_mem_empty c)
    (by simp)
  refine fracFallbackFuel_spec c count (count + 1) _ 0 h0.2 h0.1 ?_
  have hle := Finset.card_filter_le (fracAttempts c count r 50 ∅)
    (fun x : ℚ => round100 (c + (((0 : ℕ) : ℚ) + 1) / 4) ≤ x)
  omega


/-- `decodeDigits` is a left inverse of `decimalRepr`. -/
theorem decode_decimalRepr (m : ℕ) : decodeDigits (decimalRepr m) = m := by
  unfold decodeDigits decimalRepr
  rw [List.map_map]
  have hcongr : ∀ d ∈ (Nat.digits 10 m).reverse,
      ((fun ch => ch.toNat - 48) ∘ fun d => Char.ofNat (48 + d)) d =
        id d := by
    intro d hd
    have hd2 : d ∈ Nat.digits 10 m := List.mem_reverse.mp hd
    have hlt : d < 10 := Nat.digits_lt_base (by norm_num) hd2
    simp only [Function.comp_apply, id_eq]
    interval_cases d <;> decide
  rw [List.map_congr_left hcongr, List.map_id, List.reverse_reverse,
    Nat.ofDigits_digits]

/-- The decimal suffix of a positive number is nonempty. -/
theorem decimalRepr_ne_nil (m : ℕ) (hm : 0 < m) : decimalRepr m ≠ [] := by
  intro h
  unfold decimalRepr at h
  have h1 : (Nat.digits 10 m).reverse = [] := List.map_eq_nil_iff.mp h
  have h2 : Nat.digits 10 m = [] := List.reverse_eq_nil_iff.mp h1
  rw [Nat.digits_eq_nil_iff_eq_zero] at h2
  omega

/-- A string-fallback candidate never equals the correct string (it is
strictly longer). -/
theorem append_decimalRepr_ne (c : List Char) (m : ℕ) (hm : 0 < m) :
    c ++ decimalRepr m ≠ c := by
  intro h
  have hlen : (c ++ decimalRepr m).length = c.length :=
    congrArg List.length h
  rw [List.length_append] at hlen
  have hpos : 0 < (decimalRepr m).length :=
    List.length_pos.mpr (decimalRepr_ne_nil m hm)
  omega

/-- On a nonempty string the random index is always in range, so the
mutation phase never aborts; it also never adds the correct string and
never exceeds `count` elements. -/
theorem stringAttempts_some (c : List Char) (count : ℕ) (r : RandStream)
    (hc : c ≠ []) :
    ∀ (n : ℕ) (s : Finset (List Char)), c ∉ s → s.card ≤ count →
      ∃ s2, stringAttempts c count r n s = some s2 ∧ c ∉ s2 ∧
        s2.card ≤ count := by
  have hlen : 0 < c.length := List.length_pos.mpr hc
  intro n
  induction n with
  | zero => intro s h1 h2; exact ⟨s, rfl, h1, h2⟩
  | succ n ih =>
    intro s h1 h2
    simp only [stringAttempts]
    by_cases hlt : s.card < count
    · rw [if_pos hlt]
      have hidx : randIn (r (2 * n)) 0 (c.length - 1) < c.length := by
        have := @randIn_le (r (2 * n)) 0 (c.length - 1) (by omega)
        omega
      split
      · rename_i ch heq
        by_cases hcond : c.take (randIn (r (2 * n)) 0 (c.length - 1)) ++
            mutateChar ch (r (2 * n + 1)) ::
              c.drop (randIn (r (2 * n)) 0 (c.length - 1) + 1) ≠ c ∧
            c.take (randIn (r (2 * n)) 0 (c.length - 1)) ++
            mutateChar ch (r (2 * n + 1)) ::
              c.drop (randIn (r (2 * n)) 0 (c.length - 1) + 1) ∉ s
        · rw [if_pos hcond]
          apply ih
          · intro hmem
            rcases Finset.mem_insert.mp hmem with h | h
            · exact hcond.1 h.symm
            · exact h1 h
          · rw [Finset.card_insert_of_not_mem hcond.2]
            omega
        · rw [if_neg hcond]
          exact ih s h1 h2
      · rename_i heq
        exfalso
        have := List.get?_eq_none.mp heq
        omega
    · rw [if_neg hlt]
      exact ⟨s, rfl, h1, h2⟩

/-- On the empty string with a still-unfilled set, the very first
randomized attempt aborts (the source throws a `TypeError` there):
`rand(0, -1)` yields index 0 and `""[0]` is `undefined`. -/
theorem stringAttempts_empty (count : ℕ) (r : RandStream) :
    ∀ (n : ℕ), 0 < n → 0 < count →
      stringAttempts [] count r n ∅ = none
  | 0, h, _ => absurd h (lt_irrefl 0)
  | n + 1, _, hcount => by
    simp only [stringAttempts]
    rw [if_pos (by simpa using hcount)]
    rfl

/-- The whole string synthesizer aborts on the empty string (for any
positive requested count): the randomized phase throws before the
fallback is ever reached. -/
theorem generateStringWrongs_empty (count : ℕ) (r : RandStream)
    (hcount : 0 < count) : generateStringWrongs [] count r = none := by
  unfold generateStringWrongs
  rw [stringAttempts_empty count r 50 (by norm_num) hcount]

/-- Fuel-sufficiency of the string fallback loop.  The auxiliary finite
set `F` over-approximates the indices `m > fb` whose candidate
`correct ++ String(m)` already sits in `s`; a failing step consumes one
element of `F`, an inserting step shrinks `count - |s|`, so
`(count - |s|) + |F|` bounds the remaining iterations. -/
theorem stringFallbackFuel_spec (c : List Char) (count : ℕ) :
    ∀ (fuel : ℕ) (s : Finset (List Char)) (fb : ℕ) (F : Finset ℕ),
      s.card ≤ count → c ∉ s →
      (∀ m, fb < m → c ++ decimalRepr m ∈ s → m ∈ F) →
      (count - s.card) + F.card < fuel →
      ∃ R, stringFallbackFuel c count fuel s fb = some R ∧
        R.card = count ∧ c ∉ R := by
  intro fuel
  induction fuel with
  | zero => intro s fb F _ _ _ h4; exact absurd h4 (by omega)
  | succ fuel ih =>
    intro s fb F hcard hc hF hfuel
    by_cases hlt : s.card < count
    · simp only [stringFallbackFuel]
      rw [if_pos hlt]
      have hwc : c ++ decimalRepr (fb + 1) ≠ c :=
        append_decimalRepr_ne c (fb + 1) (by omega)
      by_cases hm : c ++ decimalRepr (fb + 1) ∈ s
      · rw [if_neg (by simp [hm])]
        have hfb1 : fb + 1 ∈ F := hF (fb + 1) (by omega) hm
        apply ih s (fb + 1) (F.erase (fb + 1)) hcard hc
        · intro m hm2 hmem
          rw [Finset.mem_erase]
          exact ⟨by omega, hF m (by omega) hmem⟩
        · rw [Finset.card_erase_of_mem hfb1]
          have : 0 < F.card := Finset.card_pos.mpr ⟨_, hfb1⟩
          omega
      · rw [if_pos ⟨hm, hwc⟩]
        apply ih (insert (c ++ decimalRepr (fb + 1)) s) (fb + 1) F
        · rw [Finset.card_insert_of_not_mem hm]; omega
        · intro hmem
          rcases Finset.mem_insert.mp hmem with h | h
          · exact hwc h.symm
          · exact hc h
        · intro m hm2 hmem
          rcases Finset.mem_insert.mp hmem with h | h
          · exfalso
            have h2 : decimalRepr m = decimalRepr (fb + 1) :=
              List.append_cancel_left h
            have h3 : m = fb + 1 := by
              have h4 := congrArg decodeDigits h2
              rw [decode_decimalRepr, decode_decimalRepr] at h4
              exact h4
            omega
          · exact hF m (by omega) h
        · rw [Finset.card_insert_of_not_mem hm]
          omega
    · simp only [stringFallbackFuel]
      rw [if_neg hlt]
      exact ⟨s, rfl, by omega, hc⟩

/-- The string synthesizer meets its contract on every nonempty correct
string. -/
theorem generateStringWrongs_spec (c : List Char) (count : ℕ)
    (r : RandStream) (hc : c ≠ []) :
    ∃ R, generateStringWrongs c count r = some R ∧
      R.card = count ∧ c ∉ R := by
  obtain ⟨s0, hs0, hs0c, hs0card⟩ := stringAttempts_some c count r hc 50 ∅
    (Finset.not_mem_empty c) (by simp)
  unfold generateStringWrongs
  rw [hs0]
  refine stringFallbackFuel_spec c count (2 * count + 1) s0 0
    (s0.image (fun x => decodeDigits (x.drop c.length)))
    hs0card hs0c ?_ ?_
  · intro m _ hmem
    apply Finset.mem_image.mpr
    refine ⟨_, hmem, ?_⟩
    rw [List.drop_left, decode_decimalRepr]
  · have h1 := Finset.card_image_le (s := s0)
      (f := fun x => decodeDigits (x.drop c.length))
    omega


/-- Counterexample to C3 as frozen: at the empty correct string the
symbolic-string synthesizer returns no collection at all — the source
throws a `TypeError` on its first randomized attempt (modelled as
`none`), so the contract fails there. -/
theorem c3_empty_string_aborts :
    generateStringWrongs [] 3 (fun _ => 0) = none := rfl

/-- **C3 (amended).** For every correct value and requested count, the
integer and decimal/fraction synthesizers return a collection (`Finset`,
hence pairwise distinct) of exactly `count` elements none of which
equals the correct value; the symbolic-string synthesizer does the same
for every nonempty correct string (on the empty string the source
throws before producing anything — see the counterexample). -/
theorem c3_synthesizer_contract :
    (∀ (c : ℤ) (count : ℕ) (r : RandStream),
      ∃ R, generateWrongAnswers c count r = some R ∧
        R.card = count ∧ c ∉ R) ∧
    (∀ (c : ℚ) (count : ℕ) (r : RandStream),
      ∃ R, generateFractionWrongs c count r = some R ∧
        R.card = count ∧ c ∉ R) ∧
    (∀ (c : List Char) (count : ℕ) (r : RandStream), c ≠ [] →
      ∃ R, generateStringWrongs c count r = some R ∧
        R.card = count ∧ c ∉ R) :=
  ⟨generateWrongAnswers_spec, generateFractionWrongs_spec,
    generateStringWrongs_spec⟩

/-- Witness for C3 at a concrete nonempty string. -/
theorem c3_synthesizer_contract_witness :
    ∃ R, generateStringWrongs ['1', '0'] 3 (fun _ => 0) = some R ∧
      R.card = 3 ∧ ['1', '0'] ∉ R :=
  c3_synthesizer_contract.2.2 ['1', '0'] 3 (fun _ => 0) (by decide)

/-- Counterexample to C4 as frozen: at the empty correct string the
randomized phase itself aborts (the source throws a `TypeError` on the
very first attempt), so synthesis never reaches the fallback and never
collects the requested values. -/
theorem c4_empty_string_never_completes :
    stringAttempts [] 3 (fun _ => 0) 50 ∅ = none ∧
    (generateStringWrongs [] 3 (fun _ => 0)).isSome = false :=
  ⟨rfl, rfl⟩

/-- **C4 (amended).** Distractor synthesis never runs unboundedly: the
randomized phase is capped at 50 attempts by construction, and the
deterministic fallback — run with its explicit fuel (`count + 1`, resp.
`2 * count + 1`) — never exhausts it.  The integer and fraction
synthesizers therefore complete for every input (including
`correct = 0`), and the string synthesizer for every nonempty string;
on the empty string the string variant instead aborts with a
`TypeError` on its very first randomized attempt — also within a
bounded number of steps, never an infinite loop. -/
theorem c4_synthesizer_terminates :
    (∀ (c : ℤ) (count : ℕ) (r : RandStream),
      (generateWrongAnswers c count r).isSome = true) ∧
    (∀ (c : ℚ) (count : ℕ) (r : RandStream),
      (generateFractionWrongs c count r).isSome = true) ∧
    (∀ (c : List Char) (count : ℕ) (r : RandStream), c ≠ [] →
      (generateStringWrongs c count r).isSome = true) ∧
    (∀ (count : ℕ) (r : RandStream), 0 < count →
      generateStringWrongs [] count r = none) := by
  refine ⟨fun c count r => ?_, fun c count r => ?_,
    fun c count r hc => ?_, fun count r hcount => ?_⟩
  · rcases generateWrongAnswers_spec c count r with ⟨R, hR, -, -⟩
    rw [hR]
    rfl
  · rcases generateFractionWrongs_spec c count r with ⟨R, hR, -, -⟩
    rw [hR]
    rfl
  · rcases generateStringWrongs_spec c count r hc with ⟨R, hR, -, -⟩
    rw [hR]
    rfl
  · exact generateStringWrongs_empty count r hcount

/-- Witness for C4: completion on a concrete nonempty string and the
bounded abort on the empty string. -/
theorem c4_synthesizer_terminates_witness :
    (generateStringWrongs ['4', '2'] 3 (fun _ => 0)).isSome = true ∧
    generateStringWrongs [] 3 (fun _ => 0) = none :=
  ⟨c4_synthesizer_terminates.2.2.1 ['4', '2'] 3 (fun _ => 0) (by decide),
    c4_synthesizer_terminates.2.2.2 3 (fun _ => 0) (by decide)⟩

end VocabRush
